import Mathlib

/-!
Verification of the poker_trainer hand-evaluation core.

The definitions below are a shallow embedding of the Python sources
`src/core/card.py`, `src/core/hand.py` and `src/core/evaluator.py`.
Python strings are modelled as `List Char`, Python ints as `Int`,
raised exceptions as `Option`/flag results.  Modelling notes that
matter are attached to the definitions they concern.
-/

set_option maxRecDepth 8000

namespace PokerTrainer

/-! ### Card model (src/core/card.py) -/

/-- Card.RANKS from card.py. -/
def RANKS : List Char := ['2', '3', '4', '5', '6', '7', '8', '9', 'T', 'J', 'Q', 'K', 'A']

/-- Card.SUITS from card.py. -/
def SUITS : List Char := ['♠', '♥', '♦', '♣']

/-- Card.RANK_VALUES from card.py (dict rank-char to numeric value). -/
def RANK_VALUES : List (Char × Int) :=
  [('2', 2), ('3', 3), ('4', 4), ('5', 5), ('6', 6), ('7', 7), ('8', 8), ('9', 9),
   ('T', 10), ('J', 11), ('Q', 12), ('K', 13), ('A', 14)]

/-- A playing card: the two attributes set by Card.__init__. -/
structure Card where
  rank : Char
  suit : Char
deriving DecidableEq, Repr

/-- Card.__init__: raises ValueError (modelled as `none`) when rank or suit is
outside the fixed enumerations, otherwise stores both attributes. -/
def Card.init? (rank suit : Char) : Option Card :=
  if rank ∈ RANKS then
    if suit ∈ SUITS then some ⟨rank, suit⟩ else none
  else none

/-- Card.get_rank_value: RANK_VALUES[self.rank].  The Python dict lookup raises
KeyError on a rank outside the table; that case is unreachable for cards built
by Card.__init__, and the model returns 0 there. -/
def Card.getRankValue (c : Card) : Int :=
  ((RANK_VALUES.find? (fun p => p.1 == c.rank)).map Prod.snd).getD 0

/-- suit_mapping from create_card: letter code to suit symbol. -/
def suit_mapping : List (Char × Char) := [('s', '♠'), ('h', '♥'), ('d', '♦'), ('c', '♣')]

/-- The keys of suit_mapping (what `suit_char in suit_mapping` tests). -/
def suit_codes : List Char := suit_mapping.map Prod.fst

/-- suit_mapping[x]: dict lookup, only used after a key-membership test. -/
def code_symbol (x : Char) : Char :=
  ((suit_mapping.find? (fun p => p.1 == x)).map Prod.snd).getD x

/-- create_card from card.py.  The input string is modelled as its list of
characters.  Python's str.upper and str.lower agree with the ASCII-only
`Char.toUpper`/`Char.toLower` on every character whose image could lie in
RANKS or in the suit-code set, so the membership tests below coincide with
the Python ones on all inputs. -/
def create_card (s : List Char) : Option Card :=
  match s with
  | [c0, c1] =>
    let rank := c0.toUpper
    let suit_char := c1.toLower
    if suit_char ∈ suit_codes then Card.init? rank (code_symbol suit_char)
    else if c1 ∈ SUITS then Card.init? rank c1
    else none
  | _ => none

/-! ### Hand model (src/core/hand.py) -/

/-- PrivateHand.receive_card: returns the new card list and a flag that is
true exactly when a ValueError was raised (in which case self.cards is left
as it was, because the raise happens before the append). -/
def receive_card (cards : List Card) (c : Card) : List Card × Bool :=
  if 2 ≤ cards.length then (cards, true) else (cards ++ [c], false)

/-- CommunityCards.add_card, with the same convention as `receive_card`. -/
def add_card (cards : List Card) (c : Card) : List Card × Bool :=
  if 5 ≤ cards.length then (cards, true) else (cards ++ [c], false)

/-- TotalHand: holds a private hand and the community cards. -/
structure TotalHand where
  private_hand : List Card
  community_cards : List Card
deriving DecidableEq, Repr

/-- Card.__lt__ compares by rank value only; `cards.sort(reverse=True)` sorts
in non-increasing rank order, stably.  `rank_ge a b` is the order used. -/
def rank_ge (a b : Card) : Prop := b.getRankValue ≤ a.getRankValue

instance : DecidableRel rank_ge :=
  fun a b => inferInstanceAs (Decidable (b.getRankValue ≤ a.getRankValue))

instance : IsTotal Card rank_ge :=
  ⟨fun a b => le_total (Card.getRankValue b) (Card.getRankValue a)⟩

instance : IsTrans Card rank_ge :=
  ⟨fun _ _ _ hab hbc => le_trans hbc hab⟩

/-- TotalHand.cards: concatenates the two card lists into a fresh list and
sorts that copy in non-increasing rank order (list.sort(reverse=True) is a
stable sort, as is `List.insertionSort`). -/
def TotalHand.cards (h : TotalHand) : List Card :=
  List.insertionSort rank_ge (h.private_hand ++ h.community_cards)

/-- Reading the cards property: the property body builds a new list, so the
read returns the sorted view and the TotalHand itself is untouched. -/
def TotalHand.cardsRead (h : TotalHand) : List Card × TotalHand :=
  (h.cards, h)

/-- Folding receive_card over a list of cards starting from the empty
private hand (exceptions are swallowed: the state is kept). -/
def build_private (cs : List Card) : List Card :=
  cs.foldl (fun s c => (receive_card s c).1) []

/-- Folding add_card over a list of cards starting from empty community
cards. -/
def build_community (cs : List Card) : List Card :=
  cs.foldl (fun s c => (add_card s c).1) []

/-! ### Evaluator (src/core/evaluator.py) -/

/-- itertools.combinations: all length-`n` sublists, in the lexicographic
index order itertools produces. -/
def combinations {α : Type} : Nat → List α → List (List α)
  | 0, _ => [[]]
  | _ + 1, [] => []
  | n + 1, x :: xs => (combinations n xs).map (fun c => x :: c) ++ combinations (n + 1) xs

/-- sorted(values, reverse=True) for a list of ints. -/
def sortedDescInt (l : List Int) : List Int :=
  List.insertionSort (fun a b : Int => b ≤ a) l

/-- HandEvaluator._check_straight.  `list(set(values))`: a CPython set built
from five distinct ints in 2..14 has been resized to 32 slots by its fifth
insert, so iteration is in increasing value order; with fewer than five
distinct values the length test fails and the order is irrelevant.  The
model therefore uses the ascending sorted deduplication.  The summed
consecutive differences telescope to last minus first. -/
def check_straight (values : List Int) : Bool × Option Int :=
  let unique_values := List.insertionSort (fun a b : Int => a ≤ b) values.dedup
  if unique_values.length = 5 then
    let difference := (List.zipWith (fun a b => a - b) unique_values.tail unique_values).sum
    if difference = 4 then (true, unique_values.getLast?)
    else (false, none)
  else (false, none)

/-- len(set(combi)) == 1. -/
def all_same (c : List Int) : Bool := c.dedup.length == 1

/-- combi[0] == combi[1] for the 2-element tuples produced by
combinations(values, 2). -/
def pair_eq (c : List Int) : Bool :=
  match c with
  | [a, b] => a == b
  | _ => false

/-- HandEvaluator._evaluate_five_card_hand.  Each Python `for` loop over
combinations that returns on the first hit is modelled with `find?` over the
same combination list in the same order.  Two faithful quirks to note:
in the four-of-a-kind branch, `kicker = [v for v in values if v != combi]`
compares an int with a tuple, which is always unequal, so the filter keeps
every element and `kicker[0]` is the largest value (values is sorted
descending) rather than the actual kicker; and no branch gives the wheel
(A-2-3-4-5) straight treatment.  The `(4, ...)` fallback for a remaining
list shorter than two and the `(3, [])` fallback for a missing small pair
are unreachable for five-card inputs (Python would raise IndexError or
StopIteration there). -/
def evaluate_five_card_hand (cards : List Card) : Int × List Int :=
  let values := sortedDescInt (cards.map Card.getRankValue)
  let suits := cards.map Card.suit
  let is_flush := suits.dedup.length == 1
  let is_straight := (check_straight values).1
  let straight_rank := (check_straight values).2
  if is_flush then
    if is_straight then
      if straight_rank == some 14 then (10, values) else (9, values)
    else (6, values)
  else if is_straight then (5, values)
  else
    match (combinations 4 values).find? all_same with
    | some combi =>
      let four_of_a_kind := combi.headD 0
      let kicker := values
      (8, [four_of_a_kind, kicker.headD 0])
    | none =>
      match (combinations 3 values).find? all_same with
      | some combi =>
        let three_of_a_kind := combi.headD 0
        let remaining_two_cards := values.filter (fun v => v != combi.headD 0)
        match remaining_two_cards with
        | a :: b :: rest =>
          if a = b then (7, [three_of_a_kind, a])
          else (4, three_of_a_kind :: a :: b :: rest)
        | short => (4, three_of_a_kind :: short)
      | none =>
        match (combinations 2 values).find? pair_eq with
        | some combi =>
          let p := combi.headD 0
          let remaining_three_cards := values.filter (fun v => v != p)
          if remaining_three_cards.dedup.length = 2 then
            match (combinations 2 remaining_three_cards).find? pair_eq with
            | some small_combi =>
              let p2 := small_combi.headD 0
              let kicker := remaining_three_cards.filter (fun r => r != p2)
              (3, sortedDescInt [p, p2] ++ kicker)
            | none => (3, [])
          else (2, p :: remaining_three_cards)
        | none => (1, values)

/-- HandEvaluator.evaluate_hand on a plain card list.  The loop keeps the
first candidate whose category strictly exceeds the current best; in the
equal-category branch the source compares `hand_rank[1][i]` with itself
(`score > hand_rank[1][i]` where `score` is that very element), so the inner
loop never replaces `best_hand` and has no effect.  No size validation is
performed; with fewer than five cards the loop body never runs and the
initial `(0, [0])` is returned. -/
def evaluate_hand_cards (cards : List Card) : Int × List Int :=
  (combinations 5 cards).foldl
    (fun best_hand combination =>
      let hand_rank := evaluate_five_card_hand combination
      if best_hand.1 < hand_rank.1 then hand_rank else best_hand)
    (0, [0])

/-- HandEvaluator.evaluate_hand, taking the TotalHand as the source does. -/
def evaluate_hand (hand : TotalHand) : Int × List Int :=
  evaluate_hand_cards hand.cards

/-- The tiebreak walk of HandEvaluator.compare_hands: iterate over the first
list, indexing the second; `none` models the IndexError hit when the second
list is exhausted first; completing the loop falls through to the 0 return. -/
def compare_tiebreaks : List Int → List Int → Option Int
  | [], _ => some 0
  | _ :: _, [] => none
  | x :: xs, y :: ys =>
    if y < x then some (-1)
    else if x < y then some 1
    else compare_tiebreaks xs ys

/-- HandEvaluator.compare_hands: -1 if hand1 is stronger, 1 if hand2 is
stronger, 0 for a chop. -/
def compare_hands (hand1 hand2 : TotalHand) : Option Int :=
  let hand1_rank := evaluate_hand hand1
  let hand2_rank := evaluate_hand hand2
  if hand2_rank.1 < hand1_rank.1 then some (-1)
  else if hand1_rank.1 < hand2_rank.1 then some 1
  else compare_tiebreaks hand1_rank.2 hand2_rank.2

/-! ### Helper lemmas -/

/-- Membership in `combinations n l` is exactly being a length-`n` sublist. -/
lemma mem_combinations {α : Type} : ∀ {n : Nat} {l c : List α},
    c ∈ combinations n l ↔ c.Sublist l ∧ c.length = n := by
  intro n l
  induction l generalizing n with
  | nil =>
    intro c
    cases n with
    | zero =>
      simp only [combinations, List.mem_singleton]
      constructor
      · rintro rfl; exact ⟨List.Sublist.refl _, rfl⟩
      · rintro ⟨hs, _⟩; exact List.sublist_nil.mp hs
    | succ k =>
      simp only [combinations, List.not_mem_nil, false_iff, not_and]
      intro hs
      have := List.sublist_nil.mp hs
      subst this
      simp
  | cons x xs ih =>
    intro c
    cases n with
    | zero =>
      simp only [combinations, List.mem_singleton]
      constructor
      · rintro rfl; exact ⟨List.nil_sublist _, rfl⟩
      · rintro ⟨_, hl⟩; exact List.length_eq_zero.mp hl
    | succ k =>
      simp only [combinations, List.mem_append, List.mem_map]
      constructor
      · rintro (⟨c', hc', rfl⟩ | hc)
        · obtain ⟨hs, hl⟩ := ih.mp hc'
          exact ⟨List.Sublist.cons₂ x hs, by simp [hl]⟩
        · obtain ⟨hs, hl⟩ := ih.mp hc
          exact ⟨hs.cons x, hl⟩
      · rintro ⟨hs, hl⟩
        cases c with
        | nil => simp at hl
        | cons y ys =>
          cases hs with
          | cons _ h => exact Or.inr (ih.mpr ⟨h, hl⟩)
          | cons₂ _ h =>
            exact Or.inl ⟨ys, ih.mpr ⟨h, by simpa using hl⟩, rfl⟩

/-- A list shorter than `n` has no length-`n` sublists. -/
lemma combinations_eq_nil {α : Type} : ∀ {n : Nat} {l : List α},
    l.length < n → combinations n l = [] := by
  intro n l
  induction l generalizing n with
  | nil =>
    intro h
    cases n with
    | zero => omega
    | succ k => rfl
  | cons x xs ih =>
    intro h
    cases n with
    | zero => omega
    | succ k =>
      have h1 : xs.length < k := by simpa using h
      have h2 : xs.length < k + 1 := by omega
      simp [combinations, ih h1, ih h2]

/-- Deduplicating a nonempty constant list gives the singleton. -/
lemma dedup_replicate (v : Int) : ∀ k : Nat, k ≠ 0 → (List.replicate k v).dedup = [v] := by
  intro k
  induction k with
  | zero => intro h; omega
  | succ n ih =>
    intro _
    cases n with
    | zero => rfl
    | succ m =>
      have hmem : v ∈ List.replicate (m + 1) v := List.mem_replicate.mpr ⟨by omega, rfl⟩
      rw [List.replicate_succ, List.dedup_cons_of_mem hmem, ih (by omega)]

/-- all_same holds on a nonempty constant list. -/
lemma all_same_replicate (v : Int) (k : Nat) (hk : k ≠ 0) :
    all_same (List.replicate k v) = true := by
  simp [all_same, dedup_replicate v k hk]

/-- all_same forces the list to be constant with its head as the value. -/
lemma all_same_eq_replicate {c : List Int} (h : all_same c = true) :
    c = List.replicate c.length (c.headD 0) := by
  simp only [all_same, beq_iff_eq] at h
  obtain ⟨v, hv⟩ := List.length_eq_one.mp h
  have hall : ∀ b ∈ c, b = v := by
    intro b hb
    have : b ∈ c.dedup := List.mem_dedup.mpr hb
    rw [hv] at this
    simpa using this
  have hcne : c ≠ [] := by
    intro hnil
    rw [hnil] at hv
    simp at hv
  have hhead : c.headD 0 = v := by
    cases c with
    | nil => exact absurd rfl hcne
    | cons a t => exact hall a (by simp)
  rw [hhead]
  exact List.eq_replicate_length.mpr hall

/-- If some value has count at least `k ≥ 1`, the all-same search succeeds. -/
lemma find?_all_same_isSome {k : Nat} {values : List Int} {v : Int}
    (hk : k ≠ 0) (h : k ≤ values.count v) :
    ((combinations k values).find? all_same).isSome := by
  apply List.find?_isSome.mpr
  refine ⟨List.replicate k v, ?_, all_same_replicate v k hk⟩
  exact mem_combinations.mpr
    ⟨List.le_count_iff_replicate_sublist.mp h, List.length_replicate k v⟩

/-- When the all-same search fails, every value occurs fewer than `k` times. -/
lemma count_lt_of_find?_all_same_none {k : Nat} {values : List Int}
    (hk : k ≠ 0) (h : (combinations k values).find? all_same = none) :
    ∀ v, values.count v < k := by
  intro v
  by_contra hc
  push_neg at hc
  have := find?_all_same_isSome hk hc
  rw [h] at this
  simp at this

/-- A successful all-same search returns a constant length-`k` combination
whose value occurs at least `k` times. -/
lemma find?_all_same_some {k : Nat} {values combi : List Int}
    (h : (combinations k values).find? all_same = some combi) :
    combi = List.replicate k (combi.headD 0) ∧ k ≤ values.count (combi.headD 0) := by
  have hmem := List.mem_of_find?_eq_some h
  have hp := List.find?_some h
  obtain ⟨hs, hl⟩ := mem_combinations.mp hmem
  have hrep := all_same_eq_replicate hp
  rw [hl] at hrep
  refine ⟨hrep, ?_⟩
  apply List.le_count_iff_replicate_sublist.mpr
  have hs' := hs
  rwa [hrep] at hs'

/-- pair_eq on 2-element combinations coincides with all_same. -/
lemma pair_eq_combinations_two {values : List Int} :
    ∀ c ∈ combinations 2 values, pair_eq c = all_same c := by
  intro c hc
  obtain ⟨_, hl⟩ := mem_combinations.mp hc
  match c, hl with
  | [a, b], _ =>
    by_cases hab : a = b
    · subst hab
      simp [pair_eq, all_same, List.dedup_cons_of_mem]
    · simp only [pair_eq, all_same]
      rw [List.dedup_cons_of_not_mem (by simpa using hab)]
      simp [hab]

/-- The pair search over 2-element combinations succeeds when some value is
duplicated. -/
lemma find?_pair_eq_isSome {values : List Int} {v : Int} (h : 2 ≤ values.count v) :
    ((combinations 2 values).find? pair_eq).isSome := by
  apply List.find?_isSome.mpr
  refine ⟨List.replicate 2 v, ?_, by simp [pair_eq, List.replicate]⟩
  exact mem_combinations.mpr
    ⟨List.le_count_iff_replicate_sublist.mp h, List.length_replicate 2 v⟩

/-- When the pair search fails, every value occurs at most once. -/
lemma count_lt_of_find?_pair_eq_none {values : List Int}
    (h : (combinations 2 values).find? pair_eq = none) :
    ∀ v, values.count v < 2 := by
  intro v
  by_contra hc
  push_neg at hc
  have := find?_pair_eq_isSome hc
  rw [h] at this
  simp at this

/-- A successful pair search returns a doubled value with count at least 2. -/
lemma find?_pair_eq_some {values combi : List Int}
    (h : (combinations 2 values).find? pair_eq = some combi) :
    combi = [combi.headD 0, combi.headD 0] ∧ 2 ≤ values.count (combi.headD 0) := by
  have hmem := List.mem_of_find?_eq_some h
  have hp := List.find?_some h
  rw [pair_eq_combinations_two combi hmem] at hp
  obtain ⟨hs, hl⟩ := mem_combinations.mp hmem
  have hrep := all_same_eq_replicate hp
  rw [hl] at hrep
  refine ⟨hrep, ?_⟩
  apply List.le_count_iff_replicate_sublist.mpr
  have hs' := hs
  rwa [hrep] at hs'

/-- Removing all copies of `t` shortens the list by exactly its count. -/
lemma length_filter_ne (l : List Int) (t : Int) :
    (l.filter (fun v => v != t)).length = l.length - l.count t := by
  induction l with
  | nil => rfl
  | cons x xs ih =>
    have hcl := List.count_le_length t xs
    by_cases hx : x = t
    · subst hx
      have hstep : (x :: xs).filter (fun v => v != x) = xs.filter (fun v => v != x) := by
        simp [List.filter_cons]
      rw [hstep, ih, List.count_cons_self, List.length_cons]
      omega
    · have hbne : (x != t) = true := by simpa using hx
      have hstep : (x :: xs).filter (fun v => v != t) = x :: xs.filter (fun v => v != t) := by
        simp [List.filter_cons, hbne]
      rw [hstep, List.length_cons, ih, List.length_cons,
        List.count_cons_of_ne (fun h => hx h.symm)]
      omega

/-- A list longer than its deduplication has a value of count at least 2. -/
lemma exists_dup_of_dedup_short {l : List Int} (h : l.dedup.length < l.length) :
    ∃ v, 2 ≤ l.count v := by
  by_contra hc
  push_neg at hc
  have hnd : l.Nodup := List.nodup_iff_count_le_one.mpr (fun a => by
    have := hc a; omega)
  rw [hnd.dedup] at h
  omega

/-- Folding receive_card from a state within capacity stays within capacity. -/
lemma foldl_receive_length_le : ∀ (cs s : List Card), s.length ≤ 2 →
    (cs.foldl (fun s c => (receive_card s c).1) s).length ≤ 2 := by
  intro cs
  induction cs with
  | nil => intro s h; exact h
  | cons c cs ih =>
    intro s h
    apply ih
    by_cases h2 : 2 ≤ s.length
    · simpa [receive_card, h2] using h
    · simp only [receive_card, h2, if_false, List.length_append, List.length_singleton]
      omega

/-- The private hand built by receive_card holds at most 2 cards. -/
lemma build_private_length_le (cs : List Card) : (build_private cs).length ≤ 2 :=
  foldl_receive_length_le cs [] (by simp)

/-- Folding add_card from a state within capacity stays within capacity. -/
lemma foldl_add_length_le : ∀ (cs s : List Card), s.length ≤ 5 →
    (cs.foldl (fun s c => (add_card s c).1) s).length ≤ 5 := by
  intro cs
  induction cs with
  | nil => intro s h; exact h
  | cons c cs ih =>
    intro s h
    apply ih
    by_cases h5 : 5 ≤ s.length
    · simpa [add_card, h5] using h
    · simp only [add_card, h5, if_false, List.length_append, List.length_singleton]
      omega

/-- The community cards built by add_card hold at most 5 cards. -/
lemma build_community_length_le (cs : List Card) : (build_community cs).length ≤ 5 :=
  foldl_add_length_le cs [] (by simp)

/-! ### Claim C1: the wheel (A-2-3-4-5) -/

/-- Claim C1 (code_bug evidence): the classifier has no wheel special case.
On the non-flush hand Ah 2d 3c 4s 5h, `_check_straight` sees unique values
2,3,4,5,14 with telescoped difference 12, so the hand is classified as
High Card (category 1) with tiebreak [14,5,4,3,2] — not as a 5-high
Straight (category 5) as the claim requires.  The second conjunct shows the
hand still compares as losing to the 6-high straight 2-3-4-5-6, but only
because High Card ranks below Straight. -/
theorem wheel_not_special_cased :
    evaluate_five_card_hand
        [⟨'A', '♥'⟩, ⟨'2', '♦'⟩, ⟨'3', '♣'⟩, ⟨'4', '♠'⟩, ⟨'5', '♥'⟩] = (1, [14, 5, 4, 3, 2])
    ∧ compare_hands ⟨[⟨'A', '♥'⟩, ⟨'2', '♦'⟩], [⟨'3', '♣'⟩, ⟨'4', '♠'⟩, ⟨'5', '♥'⟩]⟩
        ⟨[⟨'2', '♥'⟩, ⟨'3', '♦'⟩], [⟨'4', '♣'⟩, ⟨'5', '♠'⟩, ⟨'6', '♥'⟩]⟩ = some 1 := by
  constructor <;> decide

/-! ### Claim C2: four-of-a-kind tiebreak -/

/-- Claim C2 (code_bug evidence): in the four-of-a-kind branch the kicker
filter `[v for v in values if v != combi]` compares each int with the whole
tuple, keeps everything, and `kicker[0]` is the largest card of the hand.
On Ah Ad Ac As 2h the code therefore returns tiebreak [14,14] instead of
the claimed [quad_value, kicker_value] = [14,2]. -/
theorem four_of_a_kind_kicker_slip :
    evaluate_five_card_hand
        [⟨'A', '♥'⟩, ⟨'A', '♦'⟩, ⟨'A', '♣'⟩, ⟨'A', '♠'⟩, ⟨'2', '♥'⟩] = (8, [14, 14]) := by
  decide

/-! ### Claim C5: hand-size validation -/

/-- Claim C5 counterexample: a 2-card collection does not fail with an
InvalidHandSize error; evaluate_hand runs to completion and hands back the
initial sentinel (0, [0]). -/
theorem undersized_two_card_counterexample :
    evaluate_hand ⟨[⟨'A', '♠'⟩, ⟨'K', '♦'⟩], []⟩ = (0, [0]) := by
  decide

/-- Claim C5 (amended): evaluate_hand performs no size validation; for every
collection of fewer than five cards it returns the sentinel (0, [0]) (there
are no 5-card subsets to evaluate), rather than failing. -/
theorem undersized_evaluation_returns_sentinel (h : TotalHand)
    (hlt : h.cards.length < 5) : evaluate_hand h = (0, [0]) := by
  unfold evaluate_hand evaluate_hand_cards
  rw [combinations_eq_nil hlt]
  rfl

/-- Witness for `undersized_evaluation_returns_sentinel` at a concrete
3-card hand. -/
theorem undersized_evaluation_witness :
    (⟨[⟨'A', '♥'⟩, ⟨'K', '♥'⟩], [⟨'Q', '♥'⟩]⟩ : TotalHand).cards.length < 5
    ∧ evaluate_hand ⟨[⟨'A', '♥'⟩, ⟨'K', '♥'⟩], [⟨'Q', '♥'⟩]⟩ = (0, [0]) :=
  ⟨by decide, undersized_evaluation_returns_sentinel _ (by decide)⟩

/-! ### Claim C7: the seven-card concrete example -/

/-- The spec scenario hole=[Td,Qd], community=[9d,4c,Kd,Ad,4s]. -/
def seven_card_example : TotalHand :=
  ⟨[⟨'T', '♦'⟩, ⟨'Q', '♦'⟩], [⟨'9', '♦'⟩, ⟨'4', '♣'⟩, ⟨'K', '♦'⟩, ⟨'A', '♦'⟩, ⟨'4', '♠'⟩]⟩

/-- Claim C7 counterexample: the best hand in this seven-card collection is
not a pair of fours with tiebreak [4,14,13,12]. -/
theorem seven_card_example_not_pair_of_fours :
    evaluate_hand seven_card_example ≠ (2, [4, 14, 13, 12]) := by
  decide

/-- Claim C7 (amended): the collection holds five diamonds (A,K,Q,T,9), so
the best 5-card subset is an ace-high Flush, category 6 with tiebreak
[14,13,12,10,9], which the selector returns. -/
theorem seven_card_example_is_flush :
    evaluate_hand seven_card_example = (6, [14, 13, 12, 10, 9]) := by
  decide

/-! ### Claim C9: the TotalHand.cards view -/

/-- Claim C9: reading the cards property returns the hole and community
cards merged into one list sorted by non-increasing rank value, and the
read leaves the underlying collections untouched (the property sorts a
fresh concatenation, never the stored lists). -/
theorem cards_property_sorted_view (h : TotalHand) :
    h.cardsRead = (h.cards, h)
    ∧ h.cards.Perm (h.private_hand ++ h.community_cards)
    ∧ h.cards.Pairwise (fun a b => b.getRankValue ≤ a.getRankValue) :=
  ⟨rfl, List.perm_insertionSort rank_ge _, List.sorted_insertionSort rank_ge _⟩

/-! ### Claim C10: collection capacities -/

/-- Claim C10: receive_card errors (flag true) and keeps the list unchanged
once the private hand holds 2 cards, add_card does the same once the
community holds 5 cards, and consequently every TotalHand assembled from
collections built through these two methods holds at most 7 cards. -/
theorem hand_capacity_enforced :
    (∀ (s : List Card) (c : Card), 2 ≤ s.length → receive_card s c = (s, true))
    ∧ (∀ (s : List Card) (c : Card), 5 ≤ s.length → add_card s c = (s, true))
    ∧ ∀ (ps cs : List Card),
        (TotalHand.mk (build_private ps) (build_community cs)).cards.length ≤ 7 := by
  refine ⟨fun s c h => by simp [receive_card, h],
    fun s c h => by simp [add_card, h], fun ps cs => ?_⟩
  show (List.insertionSort rank_ge _).length ≤ 7
  rw [List.length_insertionSort, List.length_append]
  dsimp only
  have h1 := build_private_length_le ps
  have h2 := build_community_length_le cs
  omega

/-- Witness for `hand_capacity_enforced` at concrete full collections. -/
theorem hand_capacity_witness :
    receive_card [⟨'A', '♠'⟩, ⟨'K', '♠'⟩] ⟨'Q', '♠'⟩ = ([⟨'A', '♠'⟩, ⟨'K', '♠'⟩], true)
    ∧ add_card [⟨'2', '♠'⟩, ⟨'3', '♠'⟩, ⟨'4', '♠'⟩, ⟨'5', '♠'⟩, ⟨'6', '♠'⟩] ⟨'Q', '♦'⟩
        = ([⟨'2', '♠'⟩, ⟨'3', '♠'⟩, ⟨'4', '♠'⟩, ⟨'5', '♠'⟩, ⟨'6', '♠'⟩], true)
    ∧ (TotalHand.mk (build_private [⟨'A', '♠'⟩, ⟨'K', '♦'⟩])
        (build_community [⟨'2', '♠'⟩, ⟨'3', '♥'⟩, ⟨'4', '♦'⟩])).cards.length ≤ 7 :=
  ⟨hand_capacity_enforced.1 _ _ (by decide),
   hand_capacity_enforced.2.1 _ _ (by decide),
   hand_capacity_enforced.2.2 _ _⟩

/-! ### Claim C8: create_card -/

/-- Looking up a valid one-letter suit code yields a valid suit symbol. -/
lemma code_symbol_mem_SUITS {x : Char} (hx : x ∈ suit_codes) : code_symbol x ∈ SUITS := by
  simp only [suit_codes, suit_mapping, List.map_cons, List.map_nil, List.mem_cons,
    List.not_mem_nil, or_false] at hx
  rcases hx with h | h | h | h <;> subst h <;> decide

/-- Claim C8: create_card succeeds exactly on 2-character strings whose
first character upcases to one of the rank characters 2-9,T,J,Q,K,A (so
either case is accepted) and whose second character lowercases to one of
the one-letter suit codes s,h,d,c or is a literal suit symbol; the card
built carries the upcased rank and the mapped (or literal) suit symbol.
Any other input, including any string whose length is not 2, yields the
ValueError modelled by `none`. -/
theorem create_card_accepts_exactly (s : List Char) :
    ((create_card s).isSome ↔
      ∃ a b, s = [a, b] ∧ a.toUpper ∈ RANKS ∧ (b.toLower ∈ suit_codes ∨ b ∈ SUITS))
    ∧ ∀ a b c, s = [a, b] → create_card s = some c →
        c.rank = a.toUpper
        ∧ c.suit = (if b.toLower ∈ suit_codes then code_symbol b.toLower else b) := by
  rcases s with _ | ⟨a, _ | ⟨b, _ | ⟨x, rest⟩⟩⟩
  · refine ⟨by simp [create_card], ?_⟩
    intro a b c h
    exact absurd h (by simp)
  · refine ⟨by simp [create_card], ?_⟩
    intro a' b' c h
    exact absurd h (by simp)
  · by_cases h1 : b.toLower ∈ suit_codes
    · have hsym := code_symbol_mem_SUITS h1
      by_cases h2 : a.toUpper ∈ RANKS
      · have hcc : create_card [a, b] = some ⟨a.toUpper, code_symbol b.toLower⟩ := by
          simp [create_card, h1, Card.init?, h2, hsym]
        refine ⟨?_, ?_⟩
        · rw [hcc]
          simp only [Option.isSome_some, true_iff]
          exact ⟨a, b, rfl, h2, Or.inl h1⟩
        · intro a' b' c heq hsome
          have heq' : a = a' ∧ b = b' := by simpa using heq
          obtain ⟨rfl, rfl⟩ := heq'
          rw [hcc] at hsome
          injection hsome with hc
          subst hc
          exact ⟨rfl, (if_pos h1).symm⟩
      · have hcc : create_card [a, b] = none := by
          simp [create_card, h1, Card.init?, h2]
        refine ⟨?_, ?_⟩
        · rw [hcc]
          simp only [Option.isSome_none, Bool.false_eq_true, false_iff]
          rintro ⟨a', b', heq, hr, _⟩
          have heq' : a = a' ∧ b = b' := by simpa using heq
          obtain ⟨rfl, rfl⟩ := heq'
          exact h2 hr
        · intro a' b' c heq hsome
          rw [hcc] at hsome
          exact absurd hsome (by simp)
    · by_cases h3 : b ∈ SUITS
      · by_cases h2 : a.toUpper ∈ RANKS
        · have hcc : create_card [a, b] = some ⟨a.toUpper, b⟩ := by
            simp [create_card, h1, h3, Card.init?, h2]
          refine ⟨?_, ?_⟩
          · rw [hcc]
            simp only [Option.isSome_some, true_iff]
            exact ⟨a, b, rfl, h2, Or.inr h3⟩
          · intro a' b' c heq hsome
            have heq' : a = a' ∧ b = b' := by simpa using heq
            obtain ⟨rfl, rfl⟩ := heq'
            rw [hcc] at hsome
            injection hsome with hc
            subst hc
            exact ⟨rfl, (if_neg h1).symm⟩
        · have hcc : create_card [a, b] = none := by
            simp [create_card, h1, h3, Card.init?, h2]
          refine ⟨?_, ?_⟩
          · rw [hcc]
            simp only [Option.isSome_none, Bool.false_eq_true, false_iff]
            rintro ⟨a', b', heq, hr, _⟩
            have heq' : a = a' ∧ b = b' := by simpa using heq
            obtain ⟨rfl, rfl⟩ := heq'
            exact h2 hr
          · intro a' b' c heq hsome
            rw [hcc] at hsome
            exact absurd hsome (by simp)
      · have hcc : create_card [a, b] = none := by
          simp [create_card, h1, h3]
        refine ⟨?_, ?_⟩
        · rw [hcc]
          simp only [Option.isSome_none, Bool.false_eq_true, false_iff]
          rintro ⟨a', b', heq, _, hsuit⟩
          have heq' : a = a' ∧ b = b' := by simpa using heq
          obtain ⟨rfl, rfl⟩ := heq'
          rcases hsuit with h | h
          · exact h1 h
          · exact h3 h
        · intro a' b' c heq hsome
          rw [hcc] at hsome
          exact absurd hsome (by simp)
  · refine ⟨by simp [create_card], ?_⟩
    intro a' b' c h
    exact absurd h (by simp)

/-- Witness for `create_card_accepts_exactly` at the concrete strings of the
spec examples. -/
theorem create_card_witness :
    ((create_card ['K', 'h']).isSome ↔
      ∃ a b, (['K', 'h'] : List Char) = [a, b] ∧ a.toUpper ∈ RANKS
        ∧ (b.toLower ∈ suit_codes ∨ b ∈ SUITS))
    ∧ ∀ a b c, (['K', 'h'] : List Char) = [a, b] → create_card ['K', 'h'] = some c →
        c.rank = a.toUpper
        ∧ c.suit = (if b.toLower ∈ suit_codes then code_symbol b.toLower else b) :=
  create_card_accepts_exactly ['K', 'h']

/-! ### Claim C4: straight detection and straight tiebreaks -/

/-- A list of length five is an explicit five-element list. -/
lemma list_int_eq_of_length_five {u : List Int} (h : u.length = 5) :
    ∃ a b c d e, u = [a, b, c, d, e] := by
  rcases u with _ | ⟨a, _ | ⟨b, _ | ⟨c, _ | ⟨d, _ | ⟨e, _ | ⟨f, t⟩⟩⟩⟩⟩⟩
  · simp at h
  · simp at h
  · simp at h
  · simp at h
  · simp at h
  · exact ⟨a, b, c, d, e, rfl⟩
  · exfalso
    simp only [List.length_cons] at h
    omega

/-- check_straight reports a straight exactly when the hand has five unique
rank values whose maximum minus minimum is 4. -/
lemma check_straight_true_iff (values : List Int) :
    (check_straight values).1 = true ↔
      (values.dedup.length = 5 ∧ ∃ m M, m ∈ values ∧ M ∈ values ∧
        (∀ x ∈ values, m ≤ x ∧ x ≤ M) ∧ M - m = 4) := by
  have hu_len : (List.insertionSort (fun a b : Int => a ≤ b) values.dedup).length
      = values.dedup.length := List.length_insertionSort _ _
  have hu_sorted : List.Sorted (fun a b : Int => a ≤ b)
      (List.insertionSort (fun a b : Int => a ≤ b) values.dedup) :=
    List.sorted_insertionSort _ _
  have hu_mem : ∀ x : Int,
      x ∈ List.insertionSort (fun a b : Int => a ≤ b) values.dedup ↔ x ∈ values :=
    fun x => (List.mem_insertionSort _).trans List.mem_dedup
  unfold check_straight
  set u := List.insertionSort (fun a b : Int => a ≤ b) values.dedup with hu_def
  dsimp only
  split_ifs with hlen hdiff
  · obtain ⟨a, b, c, d, e, hu⟩ := list_int_eq_of_length_five hlen
    rw [hu] at hdiff hu_sorted
    simp only [List.sorted_cons, List.mem_cons, List.not_mem_nil, or_false,
      List.mem_singleton, forall_eq_or_imp, forall_eq, List.sorted_nil, and_true] at hu_sorted
    obtain ⟨⟨hab, hac, had, hae⟩, ⟨hbc, hbd, hbe⟩, ⟨hcd, hce⟩, hde, -⟩ := hu_sorted
    simp only [List.tail_cons, List.zipWith_cons_cons, List.zipWith_nil_left,
      List.sum_cons, List.sum_nil] at hdiff
    simp only [true_iff]
    refine ⟨by rw [← hu_len]; exact hlen, a, e, ?_, ?_, ?_, ?_⟩
    · exact (hu_mem a).mp (by rw [hu]; simp)
    · exact (hu_mem e).mp (by rw [hu]; simp)
    · intro x hx
      have hxu : x ∈ u := (hu_mem x).mpr hx
      rw [hu] at hxu
      simp only [List.mem_cons, List.mem_singleton, List.not_mem_nil, or_false] at hxu
      rcases hxu with rfl | rfl | rfl | rfl | rfl
      · exact ⟨le_refl _, hae⟩
      · exact ⟨hab, hbe⟩
      · exact ⟨hac, hce⟩
      · exact ⟨had, hde⟩
      · exact ⟨hae, le_refl _⟩
    · omega
  · obtain ⟨a, b, c, d, e, hu⟩ := list_int_eq_of_length_five hlen
    rw [hu] at hdiff hu_sorted
    simp only [List.sorted_cons, List.mem_cons, List.not_mem_nil, or_false,
      List.mem_singleton, forall_eq_or_imp, forall_eq, List.sorted_nil, and_true] at hu_sorted
    obtain ⟨⟨hab, hac, had, hae⟩, ⟨hbc, hbd, hbe⟩, ⟨hcd, hce⟩, hde, -⟩ := hu_sorted
    simp only [List.tail_cons, List.zipWith_cons_cons, List.zipWith_nil_left,
      List.sum_cons, List.sum_nil] at hdiff
    simp only [false_iff, not_and]
    intro _
    rintro ⟨m, M, hm, hM, hbound, hMm⟩
    have hmu : m ∈ u := (hu_mem m).mpr hm
    have hMu : M ∈ u := (hu_mem M).mpr hM
    rw [hu] at hmu hMu
    simp only [List.mem_cons, List.mem_singleton, List.not_mem_nil, or_false] at hmu hMu
    have hma : m = a := by
      have h1 : m ≤ a := (hbound a ((hu_mem a).mp (by rw [hu]; simp))).1
      have h2 : a ≤ m := by
        rcases hmu with rfl | rfl | rfl | rfl | rfl
        · exact le_refl _
        · exact hab
        · exact hac
        · exact had
        · exact hae
      omega
    have hMe : M = e := by
      have h1 : e ≤ M := (hbound e ((hu_mem e).mp (by rw [hu]; simp))).2
      have h2 : M ≤ e := by
        rcases hMu with rfl | rfl | rfl | rfl | rfl
        · exact hae
        · exact hbe
        · exact hce
        · exact hde
        · exact le_refl _
      omega
    subst hma hMe
    omega
  · simp only [false_iff, not_and]
    intro hd5
    exfalso
    rw [← hu_len] at hd5
    exact hlen hd5

/-- When check_straight fires, the classifier lands in a straight branch
(Straight, StraightFlush or RoyalFlush) and returns the full descending
value list as tiebreak. -/
lemma eval5_of_straight (cards : List Card)
    (hs : (check_straight (sortedDescInt (cards.map Card.getRankValue))).1 = true) :
    ((evaluate_five_card_hand cards).1 = 5 ∨ (evaluate_five_card_hand cards).1 = 9 ∨
      (evaluate_five_card_hand cards).1 = 10)
    ∧ (evaluate_five_card_hand cards).2 = sortedDescInt (cards.map Card.getRankValue) := by
  by_cases hf : (((cards.map Card.suit).dedup.length == 1) = true)
  · by_cases hr : (((check_straight (sortedDescInt (cards.map Card.getRankValue))).2
        == some 14) = true)
    · simp [evaluate_five_card_hand, hs, hf, hr]
    · simp [evaluate_five_card_hand, hs, hf, hr]
  · simp [evaluate_five_card_hand, hs, hf]

/-- When check_straight does not fire, the classifier never reports category
5, 9 or 10. -/
lemma eval5_of_not_straight (cards : List Card)
    (hs : ¬ ((check_straight (sortedDescInt (cards.map Card.getRankValue))).1 = true)) :
    (evaluate_five_card_hand cards).1 ≠ 5 ∧ (evaluate_five_card_hand cards).1 ≠ 9 ∧
      (evaluate_five_card_hand cards).1 ≠ 10 := by
  by_cases hf : (((cards.map Card.suit).dedup.length == 1) = true)
  · simp [evaluate_five_card_hand, hs, hf]
  · unfold evaluate_five_card_hand
    dsimp only
    rw [if_neg hf, if_neg hs]
    rcases h4 : (combinations 4 (sortedDescInt (cards.map Card.getRankValue))).find? all_same
      with _ | c4
    · dsimp only
      rcases h3 : (combinations 3 (sortedDescInt (cards.map Card.getRankValue))).find? all_same
        with _ | c3
      · dsimp only
        rcases h2 : (combinations 2 (sortedDescInt (cards.map Card.getRankValue))).find? pair_eq
          with _ | c2
        · dsimp only
          norm_num
        · dsimp only
          by_cases hdd : ((sortedDescInt (cards.map Card.getRankValue)).filter
              (fun v => v != c2.headD 0)).dedup.length = 2
          · rw [if_pos hdd]
            rcases hsc : (combinations 2 ((sortedDescInt (cards.map Card.getRankValue)).filter
                (fun v => v != c2.headD 0))).find? pair_eq with _ | sc
            · dsimp only
              norm_num
            · dsimp only
              norm_num
          · rw [if_neg hdd]
            dsimp only
            norm_num
      · dsimp only
        rcases hrem : (sortedDescInt (cards.map Card.getRankValue)).filter
            (fun v => v != c3.headD 0) with _ | ⟨a, _ | ⟨b, rest⟩⟩
        · dsimp only
          norm_num
        · dsimp only
          norm_num
        · dsimp only
          by_cases hab : a = b
          · rw [if_pos hab]
            norm_num
          · rw [if_neg hab]
            norm_num
    · dsimp only
      norm_num

/-- Claim C4 counterexample: the wheel hand As 2h 3d 4c 5s satisfies the
claimed straight condition through its wheel disjunct but is classified as
High Card (category 1), and the genuine straight 2s 3h 4d 5c 6s carries the
full five-element descending value list as tiebreak, not the single-element
[straight_high]. -/
theorem straight_claim_counterexample :
    (evaluate_five_card_hand
        [⟨'A', '♠'⟩, ⟨'2', '♥'⟩, ⟨'3', '♦'⟩, ⟨'4', '♣'⟩, ⟨'5', '♠'⟩]).1 = 1
    ∧ evaluate_five_card_hand
        [⟨'2', '♠'⟩, ⟨'3', '♥'⟩, ⟨'4', '♦'⟩, ⟨'5', '♣'⟩, ⟨'6', '♠'⟩] = (5, [6, 5, 4, 3, 2])
    ∧ (evaluate_five_card_hand
        [⟨'2', '♠'⟩, ⟨'3', '♥'⟩, ⟨'4', '♦'⟩, ⟨'5', '♣'⟩, ⟨'6', '♠'⟩]).2 ≠ [6] := by
  refine ⟨by decide, by decide, by decide⟩

/-- Claim C4 (amended): the classifier treats a 5-card hand as a straight
(category 5, 9 or 10) if and only if the hand has exactly 5 unique rank
values whose maximum minus minimum equals 4 — with no special case for the
wheel, which is therefore not a straight — and every straight-family result
carries the full descending 5-value list as its tiebreak sequence, not the
single-element [straight_high]. -/
theorem straight_detection_span_full_tiebreak (cards : List Card) (h5 : cards.length = 5) :
    (((evaluate_five_card_hand cards).1 = 5 ∨ (evaluate_five_card_hand cards).1 = 9 ∨
        (evaluate_five_card_hand cards).1 = 10) ↔
      ((cards.map Card.getRankValue).dedup.length = 5 ∧
        ∃ m M, m ∈ cards.map Card.getRankValue ∧ M ∈ cards.map Card.getRankValue ∧
          (∀ x ∈ cards.map Card.getRankValue, m ≤ x ∧ x ≤ M) ∧ M - m = 4))
    ∧ (((evaluate_five_card_hand cards).1 = 5 ∨ (evaluate_five_card_hand cards).1 = 9 ∨
        (evaluate_five_card_hand cards).1 = 10) →
      (evaluate_five_card_hand cards).2 = sortedDescInt (cards.map Card.getRankValue)) := by
  have hperm : (sortedDescInt (cards.map Card.getRankValue)).Perm
      (cards.map Card.getRankValue) := List.perm_insertionSort _ _
  have hmem : ∀ x : Int, x ∈ sortedDescInt (cards.map Card.getRankValue)
      ↔ x ∈ cards.map Card.getRankValue := fun x => hperm.mem_iff
  have hded : (sortedDescInt (cards.map Card.getRankValue)).dedup.length
      = (cards.map Card.getRankValue).dedup.length := hperm.dedup.length_eq
  constructor
  · constructor
    · intro hcat
      by_cases hstr : (check_straight (sortedDescInt (cards.map Card.getRankValue))).1 = true
      · obtain ⟨hlen5, m, M, hm, hM, hb, hMm⟩ := (check_straight_true_iff _).mp hstr
        refine ⟨by rw [← hded]; exact hlen5, m, M, (hmem m).mp hm, (hmem M).mp hM, ?_, hMm⟩
        intro x hx
        exact hb x ((hmem x).mpr hx)
      · exfalso
        have h := eval5_of_not_straight cards hstr
        rcases hcat with hc | hc | hc
        exacts [h.1 hc, h.2.1 hc, h.2.2 hc]
    · rintro ⟨hlen5, m, M, hm, hM, hb, hMm⟩
      have hstr : (check_straight (sortedDescInt (cards.map Card.getRankValue))).1 = true := by
        apply (check_straight_true_iff _).mpr
        refine ⟨by rw [hded]; exact hlen5, m, M, (hmem m).mpr hm, (hmem M).mpr hM, ?_, hMm⟩
        intro x hx
        exact hb x ((hmem x).mp hx)
      exact (eval5_of_straight cards hstr).1
  · intro hcat
    by_cases hstr : (check_straight (sortedDescInt (cards.map Card.getRankValue))).1 = true
    · exact (eval5_of_straight cards hstr).2
    · have h := eval5_of_not_straight cards hstr
      rcases hcat with hc | hc | hc
      exacts [absurd hc h.1, absurd hc h.2.1, absurd hc h.2.2]

/-- Witness for `straight_detection_span_full_tiebreak` at the concrete
straight 9s Th Jd Qc Ks. -/
theorem straight_detection_witness :
    (((evaluate_five_card_hand
        [⟨'9', '♠'⟩, ⟨'T', '♥'⟩, ⟨'J', '♦'⟩, ⟨'Q', '♣'⟩, ⟨'K', '♠'⟩]).1 = 5 ∨
      (evaluate_five_card_hand
        [⟨'9', '♠'⟩, ⟨'T', '♥'⟩, ⟨'J', '♦'⟩, ⟨'Q', '♣'⟩, ⟨'K', '♠'⟩]).1 = 9 ∨
      (evaluate_five_card_hand
        [⟨'9', '♠'⟩, ⟨'T', '♥'⟩, ⟨'J', '♦'⟩, ⟨'Q', '♣'⟩, ⟨'K', '♠'⟩]).1 = 10) ↔
      ((([⟨'9', '♠'⟩, ⟨'T', '♥'⟩, ⟨'J', '♦'⟩, ⟨'Q', '♣'⟩, ⟨'K', '♠'⟩] : List Card).map
          Card.getRankValue).dedup.length = 5 ∧
        ∃ m M, m ∈ ([⟨'9', '♠'⟩, ⟨'T', '♥'⟩, ⟨'J', '♦'⟩, ⟨'Q', '♣'⟩, ⟨'K', '♠'⟩] : List Card).map
            Card.getRankValue ∧
          M ∈ ([⟨'9', '♠'⟩, ⟨'T', '♥'⟩, ⟨'J', '♦'⟩, ⟨'Q', '♣'⟩, ⟨'K', '♠'⟩] : List Card).map
            Card.getRankValue ∧
          (∀ x ∈ ([⟨'9', '♠'⟩, ⟨'T', '♥'⟩, ⟨'J', '♦'⟩, ⟨'Q', '♣'⟩, ⟨'K', '♠'⟩] : List Card).map
            Card.getRankValue, m ≤ x ∧ x ≤ M) ∧ M - m = 4))
    ∧ (((evaluate_five_card_hand
        [⟨'9', '♠'⟩, ⟨'T', '♥'⟩, ⟨'J', '♦'⟩, ⟨'Q', '♣'⟩, ⟨'K', '♠'⟩]).1 = 5 ∨
      (evaluate_five_card_hand
        [⟨'9', '♠'⟩, ⟨'T', '♥'⟩, ⟨'J', '♦'⟩, ⟨'Q', '♣'⟩, ⟨'K', '♠'⟩]).1 = 9 ∨
      (evaluate_five_card_hand
        [⟨'9', '♠'⟩, ⟨'T', '♥'⟩, ⟨'J', '♦'⟩, ⟨'Q', '♣'⟩, ⟨'K', '♠'⟩]).1 = 10) →
      (evaluate_five_card_hand
        [⟨'9', '♠'⟩, ⟨'T', '♥'⟩, ⟨'J', '♦'⟩, ⟨'Q', '♣'⟩, ⟨'K', '♠'⟩]).2 =
        sortedDescInt (([⟨'9', '♠'⟩, ⟨'T', '♥'⟩, ⟨'J', '♦'⟩, ⟨'Q', '♣'⟩, ⟨'K', '♠'⟩] :
          List Card).map Card.getRankValue)) :=
  straight_detection_span_full_tiebreak
    [⟨'9', '♠'⟩, ⟨'T', '♥'⟩, ⟨'J', '♦'⟩, ⟨'Q', '♣'⟩, ⟨'K', '♠'⟩] (by decide)

/-! ### Claim C6: compare_hands -/

/-- The tiebreak-list length the classifier produces for each category on a
five-card input (category 0 is the sentinel of evaluate_hand). -/
def tiebreakLen (c : Int) : Nat :=
  if c = 7 ∨ c = 8 then 2
  else if c = 3 ∨ c = 4 then 3
  else if c = 2 then 4
  else if c = 0 then 1
  else 5

/-- On a five-card input the classifier's tiebreak length is a function of
the category alone. -/
lemma eval5_tiebreak_len (cards : List Card) (h5 : cards.length = 5) :
    ((evaluate_five_card_hand cards).2).length
      = tiebreakLen (evaluate_five_card_hand cards).1 := by
  have hlen5v : (sortedDescInt (cards.map Card.getRankValue)).length = 5 := by
    unfold sortedDescInt
    rw [List.length_insertionSort, List.length_map, h5]
  by_cases hstr : (check_straight (sortedDescInt (cards.map Card.getRankValue))).1 = true
  · have he := eval5_of_straight cards hstr
    rw [he.2]
    rcases he.1 with hc | hc | hc <;> rw [hc] <;> simp [tiebreakLen, hlen5v]
  · by_cases hf : (((cards.map Card.suit).dedup.length == 1) = true)
    · have he : evaluate_five_card_hand cards
          = (6, sortedDescInt (cards.map Card.getRankValue)) := by
        simp [evaluate_five_card_hand, hf, hstr]
      rw [he]
      simp [tiebreakLen, hlen5v]
    · unfold evaluate_five_card_hand
      dsimp only
      rw [if_neg hf, if_neg hstr]
      rcases h4 : (combinations 4 (sortedDescInt (cards.map Card.getRankValue))).find? all_same
        with _ | c4
      · have hc4 : ∀ v, (sortedDescInt (cards.map Card.getRankValue)).count v < 4 :=
          count_lt_of_find?_all_same_none (by norm_num) h4
        dsimp only
        rcases h3 : (combinations 3 (sortedDescInt (cards.map Card.getRankValue))).find? all_same
          with _ | c3
        · have hc3 : ∀ v, (sortedDescInt (cards.map Card.getRankValue)).count v < 3 :=
            count_lt_of_find?_all_same_none (by norm_num) h3
          dsimp only
          rcases h2 : (combinations 2
              (sortedDescInt (cards.map Card.getRankValue))).find? pair_eq with _ | c2
          · dsimp only
            simp [tiebreakLen, hlen5v]
          · obtain ⟨-, hcnt2⟩ := find?_pair_eq_some h2
            have hcp : (sortedDescInt (cards.map Card.getRankValue)).count (c2.headD 0) = 2 := by
              have := hc3 (c2.headD 0)
              omega
            have hrem3 : ((sortedDescInt (cards.map Card.getRankValue)).filter
                (fun v => v != c2.headD 0)).length = 3 := by
              rw [length_filter_ne, hlen5v, hcp]
            dsimp only
            by_cases hdd : ((sortedDescInt (cards.map Card.getRankValue)).filter
                (fun v => v != c2.headD 0)).dedup.length = 2
            · rw [if_pos hdd]
              rcases hsc : (combinations 2 ((sortedDescInt (cards.map Card.getRankValue)).filter
                  (fun v => v != c2.headD 0))).find? pair_eq with _ | sc
              · exfalso
                obtain ⟨w, hw⟩ := exists_dup_of_dedup_short (l :=
                  (sortedDescInt (cards.map Card.getRankValue)).filter
                    (fun v => v != c2.headD 0)) (by omega)
                have := find?_pair_eq_isSome hw
                rw [hsc] at this
                simp at this
              · obtain ⟨-, hwcnt⟩ := find?_pair_eq_some hsc
                have hwv : ((sortedDescInt (cards.map Card.getRankValue)).filter
                    (fun v => v != c2.headD 0)).count (sc.headD 0) = 2 := by
                  have hle : ((sortedDescInt (cards.map Card.getRankValue)).filter
                      (fun v => v != c2.headD 0)).count (sc.headD 0)
                      ≤ (sortedDescInt (cards.map Card.getRankValue)).count (sc.headD 0) :=
                    (List.filter_sublist _).count_le _
                  have := hc3 (sc.headD 0)
                  omega
                have hkick : (((sortedDescInt (cards.map Card.getRankValue)).filter
                    (fun v => v != c2.headD 0)).filter (fun r => r != sc.headD 0)).length = 1 := by
                  rw [length_filter_ne, hrem3, hwv]
                dsimp only
                rw [List.length_append, hkick]
                have hps : (sortedDescInt [c2.headD 0, sc.headD 0]).length = 2 := by
                  unfold sortedDescInt
                  rw [List.length_insertionSort]
                  rfl
                rw [hps]
                simp [tiebreakLen]
            · rw [if_neg hdd]
              dsimp only
              rw [List.length_cons, hrem3]
              simp [tiebreakLen]
        · obtain ⟨-, hcnt3⟩ := find?_all_same_some h3
          have hct : (sortedDescInt (cards.map Card.getRankValue)).count (c3.headD 0) = 3 := by
            have := hc4 (c3.headD 0)
            omega
          have hrem2 : ((sortedDescInt (cards.map Card.getRankValue)).filter
              (fun v => v != c3.headD 0)).length = 2 := by
            rw [length_filter_ne, hlen5v, hct]
          dsimp only
          rcases hrem : (sortedDescInt (cards.map Card.getRankValue)).filter
              (fun v => v != c3.headD 0) with _ | ⟨a, _ | ⟨b, rest⟩⟩
          · rw [hrem] at hrem2
            simp at hrem2
          · rw [hrem] at hrem2
            simp at hrem2
          · rw [hrem] at hrem2
            simp only [List.length_cons] at hrem2
            have hrest : rest = [] := List.length_eq_zero.mp (by omega)
            subst hrest
            dsimp only
            by_cases hab : a = b
            · rw [if_pos hab]
              simp [tiebreakLen]
            · rw [if_neg hab]
              simp [tiebreakLen]
      · dsimp only
        simp [tiebreakLen]

/-- The best-hand fold preserves the category-to-length correspondence:
its result is the sentinel or some five-card classification. -/
lemma evaluate_hand_cards_len (cards : List Card) :
    ((evaluate_hand_cards cards).2).length = tiebreakLen (evaluate_hand_cards cards).1 := by
  unfold evaluate_hand_cards
  have hmem : ∀ c ∈ combinations 5 cards, c.length = 5 :=
    fun c hc => (mem_combinations.mp hc).2
  have haux : ∀ (l : List (List Card)) (init : Int × List Int),
      (∀ c ∈ l, c.length = 5) → init.2.length = tiebreakLen init.1 →
      ((l.foldl (fun best_hand combination =>
          let hand_rank := evaluate_five_card_hand combination
          if best_hand.1 < hand_rank.1 then hand_rank else best_hand) init).2).length
        = tiebreakLen ((l.foldl (fun best_hand combination =>
          let hand_rank := evaluate_five_card_hand combination
          if best_hand.1 < hand_rank.1 then hand_rank else best_hand) init).1) := by
    intro l
    induction l with
    | nil => intro init _ h2; simpa using h2
    | cons c cs ih =>
      intro init hm hinit
      simp only [List.foldl_cons]
      apply ih _ (fun x hx => hm x (List.mem_cons_of_mem _ hx))
      dsimp only
      by_cases hlt : init.1 < (evaluate_five_card_hand c).1
      · rw [if_pos hlt]
        exact eval5_tiebreak_len c (hm c (List.mem_cons_self _ _))
      · rw [if_neg hlt]
        exact hinit
  exact haux _ _ hmem (by simp [tiebreakLen])

/-- The tiebreak walk on identical lists returns 0. -/
lemma compare_tiebreaks_self : ∀ l : List Int, compare_tiebreaks l l = some 0 := by
  intro l
  induction l with
  | nil => rfl
  | cons x xs ih => simp [compare_tiebreaks, ih]

/-- The tiebreak walk is antisymmetric between -1 and 1. -/
lemma compare_tiebreaks_neg_iff : ∀ l1 l2 : List Int,
    compare_tiebreaks l1 l2 = some (-1) ↔ compare_tiebreaks l2 l1 = some 1 := by
  intro l1
  induction l1 with
  | nil => intro l2; cases l2 <;> simp [compare_tiebreaks]
  | cons x xs ih =>
    intro l2
    cases l2 with
    | nil => simp [compare_tiebreaks]
    | cons y ys =>
      by_cases h1 : y < x
      · have h2 : ¬ x < y := by omega
        simp [compare_tiebreaks, h1, h2]
      · by_cases h2 : x < y
        · simp [compare_tiebreaks, h1, h2]
        · have hxy : x = y := by omega
          subst hxy
          simp [compare_tiebreaks, h1, h2, ih]

/-- On equal-length lists the tiebreak walk always lands in -1, 0 or 1
(no IndexError). -/
lemma compare_tiebreaks_cases : ∀ (l1 l2 : List Int), l1.length = l2.length →
    compare_tiebreaks l1 l2 = some (-1) ∨ compare_tiebreaks l1 l2 = some 0 ∨
      compare_tiebreaks l1 l2 = some 1 := by
  intro l1
  induction l1 with
  | nil => intro l2 _; right; left; rfl
  | cons x xs ih =>
    intro l2 h
    cases l2 with
    | nil => simp at h
    | cons y ys =>
      simp only [compare_tiebreaks]
      by_cases h1 : y < x
      · rw [if_pos h1]; left; rfl
      · rw [if_neg h1]
        by_cases h2 : x < y
        · rw [if_pos h2]; right; right; rfl
        · rw [if_neg h2]
          exact ih ys (by simpa using h)

/-- Claim C6: on 5-7 card hands compare_hands is antisymmetric (FirstWins,
encoded -1, swaps with SecondWins, encoded 1), every hand ties with itself
(0), and the outcome is always exactly one of those three encoded values —
in particular the tiebreak walk never runs off the shorter list, because
equal categories force equal tiebreak lengths. -/
theorem compare_hands_three_way (a b : TotalHand)
    (ha1 : 5 ≤ a.cards.length) (ha2 : a.cards.length ≤ 7)
    (hb1 : 5 ≤ b.cards.length) (hb2 : b.cards.length ≤ 7) :
    (compare_hands a b = some (-1) ↔ compare_hands b a = some 1)
    ∧ (compare_hands a b = some 1 ↔ compare_hands b a = some (-1))
    ∧ compare_hands a a = some 0
    ∧ (compare_hands a b = some (-1) ∨ compare_hands a b = some 0 ∨
        compare_hands a b = some 1) := by
  have key : ∀ x y : TotalHand,
      compare_hands x y = some (-1) ↔ compare_hands y x = some 1 := by
    intro x y
    unfold compare_hands
    dsimp only
    by_cases hgt : (evaluate_hand y).1 < (evaluate_hand x).1
    · have hlt : ¬ (evaluate_hand x).1 < (evaluate_hand y).1 := by omega
      rw [if_pos hgt, if_neg hlt, if_pos hgt]
      simp
    · by_cases hlt : (evaluate_hand x).1 < (evaluate_hand y).1
      · rw [if_neg hgt, if_pos hlt, if_pos hlt]
        simp
      · rw [if_neg hgt, if_neg hlt, if_neg hlt, if_neg hgt]
        exact compare_tiebreaks_neg_iff _ _
  refine ⟨key a b, (key b a).symm, ?_, ?_⟩
  · unfold compare_hands
    dsimp only
    rw [if_neg (lt_irrefl _), if_neg (lt_irrefl _)]
    exact compare_tiebreaks_self _
  · unfold compare_hands
    dsimp only
    by_cases hgt : (evaluate_hand b).1 < (evaluate_hand a).1
    · rw [if_pos hgt]; left; rfl
    · rw [if_neg hgt]
      by_cases hlt : (evaluate_hand a).1 < (evaluate_hand b).1
      · rw [if_pos hlt]; right; right; rfl
      · rw [if_neg hlt]
        have heq : (evaluate_hand a).1 = (evaluate_hand b).1 := by omega
        apply compare_tiebreaks_cases
        have la := evaluate_hand_cards_len a.cards
        have lb := evaluate_hand_cards_len b.cards
        unfold evaluate_hand at heq ⊢
        rw [la, lb, heq]

/-- Witness for `compare_hands_three_way` at two concrete 5-card hands. -/
theorem compare_hands_witness :
    (compare_hands ⟨[⟨'A', '♠'⟩, ⟨'K', '♦'⟩], [⟨'Q', '♥'⟩, ⟨'J', '♣'⟩, ⟨'9', '♠'⟩]⟩
        ⟨[⟨'2', '♠'⟩, ⟨'3', '♦'⟩], [⟨'4', '♥'⟩, ⟨'6', '♣'⟩, ⟨'8', '♠'⟩]⟩ = some (-1) ↔
      compare_hands ⟨[⟨'2', '♠'⟩, ⟨'3', '♦'⟩], [⟨'4', '♥'⟩, ⟨'6', '♣'⟩, ⟨'8', '♠'⟩]⟩
        ⟨[⟨'A', '♠'⟩, ⟨'K', '♦'⟩], [⟨'Q', '♥'⟩, ⟨'J', '♣'⟩, ⟨'9', '♠'⟩]⟩ = some 1)
    ∧ (compare_hands ⟨[⟨'A', '♠'⟩, ⟨'K', '♦'⟩], [⟨'Q', '♥'⟩, ⟨'J', '♣'⟩, ⟨'9', '♠'⟩]⟩
        ⟨[⟨'2', '♠'⟩, ⟨'3', '♦'⟩], [⟨'4', '♥'⟩, ⟨'6', '♣'⟩, ⟨'8', '♠'⟩]⟩ = some 1 ↔
      compare_hands ⟨[⟨'2', '♠'⟩, ⟨'3', '♦'⟩], [⟨'4', '♥'⟩, ⟨'6', '♣'⟩, ⟨'8', '♠'⟩]⟩
        ⟨[⟨'A', '♠'⟩, ⟨'K', '♦'⟩], [⟨'Q', '♥'⟩, ⟨'J', '♣'⟩, ⟨'9', '♠'⟩]⟩ = some (-1))
    ∧ compare_hands ⟨[⟨'A', '♠'⟩, ⟨'K', '♦'⟩], [⟨'Q', '♥'⟩, ⟨'J', '♣'⟩, ⟨'9', '♠'⟩]⟩
        ⟨[⟨'A', '♠'⟩, ⟨'K', '♦'⟩], [⟨'Q', '♥'⟩, ⟨'J', '♣'⟩, ⟨'9', '♠'⟩]⟩ = some 0
    ∧ (compare_hands ⟨[⟨'A', '♠'⟩, ⟨'K', '♦'⟩], [⟨'Q', '♥'⟩, ⟨'J', '♣'⟩, ⟨'9', '♠'⟩]⟩
        ⟨[⟨'2', '♠'⟩, ⟨'3', '♦'⟩], [⟨'4', '♥'⟩, ⟨'6', '♣'⟩, ⟨'8', '♠'⟩]⟩ = some (-1)
      ∨ compare_hands ⟨[⟨'A', '♠'⟩, ⟨'K', '♦'⟩], [⟨'Q', '♥'⟩, ⟨'J', '♣'⟩, ⟨'9', '♠'⟩]⟩
        ⟨[⟨'2', '♠'⟩, ⟨'3', '♦'⟩], [⟨'4', '♥'⟩, ⟨'6', '♣'⟩, ⟨'8', '♠'⟩]⟩ = some 0
      ∨ compare_hands ⟨[⟨'A', '♠'⟩, ⟨'K', '♦'⟩], [⟨'Q', '♥'⟩, ⟨'J', '♣'⟩, ⟨'9', '♠'⟩]⟩
        ⟨[⟨'2', '♠'⟩, ⟨'3', '♦'⟩], [⟨'4', '♥'⟩, ⟨'6', '♣'⟩, ⟨'8', '♠'⟩]⟩ = some 1) :=
  compare_hands_three_way
    ⟨[⟨'A', '♠'⟩, ⟨'K', '♦'⟩], [⟨'Q', '♥'⟩, ⟨'J', '♣'⟩, ⟨'9', '♠'⟩]⟩
    ⟨[⟨'2', '♠'⟩, ⟨'3', '♦'⟩], [⟨'4', '♥'⟩, ⟨'6', '♣'⟩, ⟨'8', '♠'⟩]⟩
    (by decide) (by decide) (by decide) (by decide)

end PokerTrainer
